import Mathlib

/-!
Shallow embedding of the filter-and-aggregation pipeline of
`src/streamlit_app.py` (an Airbnb listings dashboard), together with
theorems settling the specification claims about it.

Modelling conventions:
* A pandas DataFrame is a `List` of records, in row order.
* A CSV cell that may be missing (NaN) is an `Option`; `none` is NaN.
* Floating point prices and scores are modelled as `ℚ`: every decimal
  literal in scope is exactly representable and the comparisons and
  arithmetic used by the program coincide with the rational ones.
* Python `int()` truncation toward zero is `pyInt`.
* Fallible positional access (`.iloc[0]`, which raises `IndexError` on an
  empty frame) is `Except String`.
-/

set_option maxRecDepth 100000

deriving instance DecidableEq for Except

namespace Listings

open List

/-- A cleaned listing record: the row shape of `df` after the clean/dropna
block (lines 6-26 of `streamlit_app.py`).  `neighbourhood_cleansed` stays
optional because the dropna at line 14 checks `host_neighbourhood`, not
`neighbourhood_cleansed`. -/
structure Record where
  id : String
  price : ℚ
  room_type : String
  host_neighbourhood : String
  neighbourhood_cleansed : Option String
  host_is_superhost : String
  review_scores_rating : ℚ
  review_scores_accuracy : ℚ
  review_scores_cleanliness : ℚ
  review_scores_checkin : ℚ
  review_scores_communication : ℚ
  review_scores_location : ℚ
  avg_review_score : ℚ
  picture_url : String
  host_url : String
  host_response_rate : String
  deriving DecidableEq, Repr

/-- A raw CSV row, before cleaning: each cell that the script may find
missing is an `Option` (`none` = NaN).  `id` is total because
`astype(str)` never fails. -/
structure RawRecord where
  id : String
  price : Option String
  room_type : Option String
  host_neighbourhood : Option String
  neighbourhood_cleansed : Option String
  host_is_superhost : Option String
  review_scores_rating : Option ℚ
  review_scores_accuracy : Option ℚ
  review_scores_cleanliness : Option ℚ
  review_scores_checkin : Option ℚ
  review_scores_communication : Option ℚ
  review_scores_location : Option ℚ
  picture_url : Option String
  host_url : Option String
  host_response_rate : Option String
  deriving DecidableEq, Repr

/-- `df['price'].replace('[\$,]', '', regex=True)`: delete every dollar
sign and comma from the cell. -/
def stripPriceChars (s : String) : String :=
  String.mk (s.toList.filter (fun c => c != '$' && c != ','))

/-- Digit-string value, most significant first. -/
def digitsVal (cs : List Char) : ℕ :=
  cs.foldl (fun a c => 10 * a + (c.toNat - 48)) 0

/-- Model of Python `float()` on the plain decimal shapes that occur in a
price column: optional sign, integer digits, optional `.` and fraction
digits.  Anything else (letters, stray symbols, empty string) fails, as
`float()` raises `ValueError` there. -/
def parseFloat? (s : String) : Option ℚ :=
  let cs := s.toList
  let signed : ℚ × List Char :=
    match cs with
    | '-' :: rest => (-1, rest)
    | '+' :: rest => (1, rest)
    | other => (1, other)
  let sign := signed.1
  let body := signed.2
  let intPart := body.takeWhile Char.isDigit
  let rest := body.dropWhile Char.isDigit
  match rest with
  | [] =>
      if intPart.isEmpty then none
      else some (sign * (digitsVal intPart : ℚ))
  | '.' :: frac =>
      if frac.all Char.isDigit && !(intPart.isEmpty && frac.isEmpty) then
        some (sign * ((digitsVal intPart : ℚ) +
          (digitsVal frac : ℚ) / (10 ^ frac.length : ℚ)))
      else none
  | _ => none

/-- `df['host_is_superhost'].map({'t': 'Yes', 'f': 'No'})`: codes outside
the dict (and NaN) become NaN. -/
def mapSuperhost : Option String → Option String
  | some "t" => some "Yes"
  | some "f" => some "No"
  | _ => none

/-- Whether `astype(float)` succeeds on this row's price cell.  A NaN cell
passes (it stays NaN); a string cell must parse. -/
def priceCellOk (r : RawRecord) : Bool :=
  match r.price with
  | none => true
  | some s => (parseFloat? (stripPriceChars s)).isSome

/-- Per-record cleaning: the combined effect, on one row, of the
price/superhost normalisation and the three `dropna` calls (lines 9-26).
Returns `none` when the row is dropped.  The unparseable-price case is
also `none` here; `loadClean` turns it into a load-level failure first,
matching the fact that `astype(float)` runs over the whole column before
any `dropna`. -/
def cleanRecord? (r : RawRecord) : Option Record :=
  match r.price with
  | none => none
  | some s =>
    match parseFloat? (stripPriceChars s) with
    | none => none
    | some p =>
      match mapSuperhost r.host_is_superhost, r.room_type, r.host_neighbourhood with
      | some sh, some rt, some hn =>
        match r.review_scores_rating, r.review_scores_accuracy,
              r.review_scores_cleanliness, r.review_scores_checkin,
              r.review_scores_communication, r.review_scores_location with
        | some q1, some q2, some q3, some q4, some q5, some q6 =>
          match r.picture_url, r.host_url, r.host_response_rate with
          | some pu, some hu, some hrr =>
            some { id := r.id, price := p, room_type := rt,
                   host_neighbourhood := hn,
                   neighbourhood_cleansed := r.neighbourhood_cleansed,
                   host_is_superhost := sh,
                   review_scores_rating := q1, review_scores_accuracy := q2,
                   review_scores_cleanliness := q3, review_scores_checkin := q4,
                   review_scores_communication := q5, review_scores_location := q6,
                   avg_review_score := (q1 + q2 + q3 + q4 + q5 + q6) / 6,
                   picture_url := pu, host_url := hu, host_response_rate := hrr }
          | _, _, _ => none
        | _, _, _, _, _, _ => none
      | _, _, _ => none

/-- The Loader/Cleaner: `pd.read_csv` followed by the clean/dropna block.
`df['price'].astype(float)` raises `ValueError` as soon as any cell fails
to parse, so one bad cell aborts the whole load; otherwise the cleaned
set is the rows surviving every per-record exclusion. -/
def loadClean (rows : List RawRecord) : Except Unit (List Record) :=
  if rows.all priceCellOk then Except.ok (rows.filterMap cleanRecord?)
  else Except.error ()

/-- The Stage-1 inclusion predicate (lines 40-44):
`(price >= lo) & (price <= hi) & (host_is_superhost == sel)`. -/
def stage1Pred (lo hi : ℚ) (sel : String) (r : Record) : Bool :=
  decide (lo ≤ r.price) && decide (r.price ≤ hi) && (r.host_is_superhost == sel)

/-- `base_df`: the Stage-1 filtered view. -/
def base_df (df : List Record) (lo hi : ℚ) (sel : String) : List Record :=
  df.filter (stage1Pred lo hi sel)

/-- Python `int()`: truncation toward zero. -/
def pyInt (q : ℚ) : ℤ :=
  if 0 ≤ q then q.floor else -(-q).floor

/-- `df['price'].min()` over a nonempty frame (0 as a junk value on an
empty one, where the script would have crashed earlier anyway). -/
def priceMinVal : List Record → ℚ
  | [] => 0
  | d :: ds => ds.foldl (fun m r => min m r.price) d.price

/-- `df['price'].max()` over a nonempty frame. -/
def priceMaxVal : List Record → ℚ
  | [] => 0
  | d :: ds => ds.foldl (fun m r => max m r.price) d.price

/-- `price_min = int(df['price'].min())` (line 33): the slider's lower
end. -/
def price_min (df : List Record) : ℤ := pyInt (priceMinVal df)

/-- `price_max = int(df['price'].max())` (line 33): the slider's upper
end.  `int()` truncates, so this can sit strictly below the true maximum
price. -/
def price_max (df : List Record) : ℤ := pyInt (priceMaxVal df)

/-- The Stage-2 inclusion predicate (lines 101-104): exact match on
`room_type` and `neighbourhood_cleansed` (a NaN neighbourhood never
equals a selected string, as in pandas). -/
def stage2Pred (room neigh : String) (r : Record) : Bool :=
  (r.room_type == room) && (r.neighbourhood_cleansed == some neigh)

/-- `filtered_df`: the Stage-2 filtered view, carved out of `base_df`. -/
def filtered_df (base : List Record) (room neigh : String) : List Record :=
  base.filter (stage2Pred room neigh)

/-- `filtered_df.iloc[0]`: first row, or an `IndexError` on an empty
frame. -/
def iloc0 : List Record → Except String Record
  | [] => Except.error "IndexError"
  | r :: _ => Except.ok r

/-- `selected_row = filtered_df[filtered_df['id'] == selected_id].iloc[0]`
(line 137): the Stage-3 selector. -/
def selected_row (view : List Record) (sel : String) : Except String Record :=
  iloc0 (view.filter (fun r => r.id == sel))

/-- The `review_scores` breakdown table (lines 140-150): six fixed
`(Category, Score)` rows in display order. -/
def review_scores (r : Record) : List (String × ℚ) :=
  [("Rating", r.review_scores_rating),
   ("Accuracy", r.review_scores_accuracy),
   ("Cleanliness", r.review_scores_cleanliness),
   ("Check-in", r.review_scores_checkin),
   ("Communication", r.review_scores_communication),
   ("Location", r.review_scores_location)]

/-! ### Aggregator (lines 74-78)

`base_df.groupby('neighbourhood_cleansed', as_index=False)['price'].mean()
       .sort_values('price', ascending=False)`

pandas `groupby` (default `sort=True`, `dropna=True`) emits one group per
distinct non-NaN key, in ascending key order.  `sort_values` with the
default `kind='quicksort'` and `ascending=False` is computed by pandas
`nargsort` as: reverse the values, run `np.argsort(kind='quicksort')`,
reverse the resulting order.  numpy's quicksort kind is an introsort on
the index array: ranges wider than `SMALL_QUICKSORT` (15) undergo a
median-of-three partition round (which swaps equal elements — the kind
is NOT stable), the larger side is pushed on an explicit stack, and
ranges of at most 16 elements are finished by a plain (stable) insertion
sort.  The sort below reproduces that algorithm element-wise on the
`(neighbourhood, mean)` rows: the control flow of the C code depends
only on the compared values, so sorting the rows directly by mean
performs exactly the swaps the index sort performs.  The depth-limited
heapsort fallback of the C code is not modelled: it triggers only after
`2*msb(n)` partition rounds on one path, and no input evaluated in this
file performs more than one round. -/

/-- Insert a key into an ascending, duplicate-free key list. -/
def insertKey (x : String) : List String → List String
  | [] => [x]
  | y :: ys => if x < y then x :: y :: ys else if x == y then y :: ys else y :: insertKey x ys

/-- The distinct non-NaN neighbourhood keys of a view, ascending: the
group keys of `groupby('neighbourhood_cleansed')`. -/
def groupKeys (view : List Record) : List String :=
  (view.filterMap Record.neighbourhood_cleansed).foldl (fun acc k => insertKey k acc) []

/-- The rows of `view` in neighbourhood group `k`. -/
def groupRecords (view : List Record) (k : String) : List Record :=
  view.filter (fun r => r.neighbourhood_cleansed == some k)

/-- Mean price of neighbourhood group `k` within `view`. -/
def groupMean (view : List Record) (k : String) : ℚ :=
  let ps := (groupRecords view k).map Record.price
  ps.sum / (ps.length : ℚ)

/-- The grouped-and-averaged table, one `(neighbourhood, mean price)` row
per group, in the ascending key order `groupby` emits. -/
def groupRows (view : List Record) : List (String × ℚ) :=
  (groupKeys view).map (fun k => (k, groupMean view k))

/-- Stable insertion (ascending by mean price): an element moves past
strictly greater means only, so equal means keep their incoming order. -/
def insertByPrice (x : String × ℚ) : List (String × ℚ) → List (String × ℚ)
  | [] => [x]
  | y :: ys => if x.2 < y.2 then x :: y :: ys else y :: insertByPrice x ys

/-- Stable ascending insertion sort by mean price: numpy's small-range
insertion sort (elements move left past strictly greater values only),
in fold form — both compute the unique stable ascending arrangement. -/
def sortAscByPrice (l : List (String × ℚ)) : List (String × ℚ) :=
  l.foldl (fun acc x => insertByPrice x acc) []

/-- Read a row of the in-place sort model (out-of-range reads return a
junk row; the traced control paths stay in range, as the C pointers do). -/
def rowAt (arr : List (String × ℚ)) (i : ℕ) : String × ℚ :=
  arr.getD i ("", 0)

/-- Swap two positions of the in-place sort model. -/
def swapRows (arr : List (String × ℚ)) (i j : ℕ) : List (String × ℚ) :=
  (arr.set i (rowAt arr j)).set j (rowAt arr i)

/-- `do ++pi; while (arr[pi] < vp)` of the numpy partition scan. -/
def scanUp (arr : List (String × ℚ)) (vp : ℚ) (pi : ℕ) : ℕ → ℕ
  | 0 => pi
  | fuel + 1 =>
      if (rowAt arr (pi + 1)).2 < vp then scanUp arr vp (pi + 1) fuel else pi + 1

/-- `do --pj; while (vp < arr[pj])` of the numpy partition scan. -/
def scanDown (arr : List (String × ℚ)) (vp : ℚ) (pj : ℕ) : ℕ → ℕ
  | 0 => pj
  | fuel + 1 =>
      if vp < (rowAt arr (pj - 1)).2 then scanDown arr vp (pj - 1) fuel else pj - 1

/-- The inner scan/swap loop of the numpy partition: advance `pi` and
`pj` past in-place elements, stop when they cross, else swap and repeat. -/
def partitionLoop (arr : List (String × ℚ)) (vp : ℚ) (pi pj : ℕ) :
    ℕ → List (String × ℚ) × ℕ
  | 0 => (arr, pi)
  | fuel + 1 =>
      let pi2 := scanUp arr vp pi (arr.length + 1)
      let pj2 := scanDown arr vp pj (arr.length + 1)
      if pi2 ≥ pj2 then (arr, pi2)
      else partitionLoop (swapRows arr pi2 pj2) vp pi2 pj2 fuel

/-- One numpy quicksort partition round on `[pl, pr]`: median-of-three
pivot selection (three conditional swaps), pivot stashed at `pr - 1`,
the scan/swap loop, pivot restored at the split index `pi`. -/
def partitionRound (arr : List (String × ℚ)) (pl pr : ℕ) :
    List (String × ℚ) × ℕ :=
  let pm := pl + (pr - pl) / 2
  let arr1 := if (rowAt arr pm).2 < (rowAt arr pl).2 then swapRows arr pm pl else arr
  let arr2 := if (rowAt arr1 pr).2 < (rowAt arr1 pm).2 then swapRows arr1 pr pm else arr1
  let arr3 := if (rowAt arr2 pm).2 < (rowAt arr2 pl).2 then swapRows arr2 pm pl else arr2
  let vp := (rowAt arr3 pm).2
  let arr4 := swapRows arr3 pm (pr - 1)
  let res := partitionLoop arr4 vp pl (pr - 1) (arr4.length + 1)
  (swapRows res.1 res.2 (pr - 1), res.2)

/-- numpy's small-range insertion sort applied to `[pl, pr]` in place:
the segment is replaced by its stable ascending arrangement. -/
def insortRange (arr : List (String × ℚ)) (pl pr : ℕ) : List (String × ℚ) :=
  arr.take pl ++ sortAscByPrice ((arr.drop pl).take (pr + 1 - pl)) ++ arr.drop (pr + 1)

/-- The numpy quicksort main loop: while the current range `[pl, pr]`
holds more than `SMALL_QUICKSORT = 15` elements, run a partition round
and push the larger side on the explicit stack; a small range is
insertion-sorted and the stack popped.  `fuel` bounds the iterations
(ample at every size evaluated here); the depth-limited heapsort
fallback is not modelled (unreachable on the evaluated shapes). -/
def npSortLoop : ℕ → List (String × ℚ) → List (ℕ × ℕ) → ℕ → ℕ →
    List (String × ℚ)
  | 0, arr, _, _, _ => arr
  | fuel + 1, arr, stack, pl, pr =>
      if pl + 15 < pr then
        let res := partitionRound arr pl pr
        if res.2 - pl < pr - res.2 then
          npSortLoop fuel res.1 ((res.2 + 1, pr) :: stack) pl (res.2 - 1)
        else
          npSortLoop fuel res.1 ((pl, res.2 - 1) :: stack) (res.2 + 1) pr
      else
        let arr2 := insortRange arr pl pr
        match stack with
        | [] => arr2
        | (l, r) :: rest => npSortLoop fuel arr2 rest l r

/-- `np.sort(kind='quicksort')` ascending, element form, on the rows. -/
def npQuicksortByPrice (l : List (String × ℚ)) : List (String × ℚ) :=
  npSortLoop (2 * l.length + 2) l [] 0 (l.length - 1)

/-- `sort_values('price', ascending=False)` with the default
`kind='quicksort'`, as pandas `nargsort` computes it: reverse the rows,
numpy-quicksort ascending, reverse the result. -/
def sort_values_desc (l : List (String × ℚ)) : List (String × ℚ) :=
  (npQuicksortByPrice l.reverse).reverse

/-- `neighborhood_avg` (lines 74-78): the NeighborhoodSummary table. -/
def neighborhood_avg (view : List Record) : List (String × ℚ) :=
  sort_values_desc (groupRows view)

/-- The order invariant of the intermediate ascending sort: mean price
strictly ascending, ties (equal means) with names strictly descending —
the shape a stable ascending sort produces from name-descending input.
Reversing it yields mean price descending with ties name-ascending. -/
def ascTieDesc (a b : String × ℚ) : Prop :=
  a.2 < b.2 ∨ (a.2 = b.2 ∧ b.1 < a.1)

/-! ### Host-info projection (lines 164-168)

`selected_row` is a pandas `Series`; `selected_row.get(field, default)`
returns the default only when `field` is absent as a key.  A key that is
present with a NaN value is returned as NaN, and the f-string renders it
as the text `nan`. -/

/-- A Python cell value as the host-info block sees it. -/
inductive PyVal where
  | str : String → PyVal
  | nan : PyVal
  deriving DecidableEq, Repr

/-- A pandas `Series` row: association list from field name to value. -/
abbrev PyRow := List (String × PyVal)

/-- `Series.get(k, dflt)`: the stored value when the key exists (NaN
included), the default only when the key is missing. -/
def rowGet (row : PyRow) (k : String) (dflt : PyVal) : PyVal :=
  match row.find? (fun kv => kv.1 == k) with
  | some kv => kv.2
  | none => dflt

/-- How the f-string `f"**...:** {value}"` prints the value. -/
def pyValText : PyVal → String
  | .str s => s
  | .nan => "nan"

/-- `host_fields` (line 165). -/
def host_fields : List String :=
  ["host_name", "host_response_rate", "host_acceptance_rate"]

/-- The value text rendered for one host field (lines 166-168). -/
def hostFieldValue (row : PyRow) (f : String) : String :=
  pyValText (rowGet row f (PyVal.str "Not Available"))

/-- The whole rendered host-info block: one `(field, value text)` line
per entry of `host_fields`. -/
def hostInfoLines (row : PyRow) : List (String × String) :=
  host_fields.map (fun f => (f, hostFieldValue row f))

/-! ### Concrete sample data used by counterexamples and witnesses -/

/-- A superhost listing in Midtown at an integral price. -/
def recA : Record :=
  { id := "a1", price := 100, room_type := "Entire home/apt",
    host_neighbourhood := "Hells Kitchen",
    neighbourhood_cleansed := some "Midtown", host_is_superhost := "Yes",
    review_scores_rating := 5, review_scores_accuracy := 5,
    review_scores_cleanliness := 5, review_scores_checkin := 5,
    review_scores_communication := 5, review_scores_location := 5,
    avg_review_score := 5, picture_url := "http://pic/a1",
    host_url := "http://host/a1", host_response_rate := "100%" }

/-- A non-superhost listing in Harlem. -/
def recB : Record :=
  { id := "b2", price := 80, room_type := "Private room",
    host_neighbourhood := "Harlem",
    neighbourhood_cleansed := some "Harlem", host_is_superhost := "No",
    review_scores_rating := 4, review_scores_accuracy := 4,
    review_scores_cleanliness := 4, review_scores_checkin := 4,
    review_scores_communication := 4, review_scores_location := 4,
    avg_review_score := 4, picture_url := "http://pic/b2",
    host_url := "http://host/b2", host_response_rate := "90%" }

/-- A superhost listing priced at 100.5: strictly above `int(100.5)`. -/
def recHalf : Record :=
  { recA with id := "c3", price := 201 / 2, neighbourhood_cleansed := some "Chelsea" }

/-- The two-record cleaned set for the slider-truncation scenario. -/
def cleanedTwo : List Record := [recA, recHalf]

/-- A raw row that cleans successfully. -/
def rawGood : RawRecord :=
  { id := "g1", price := some "$1,200.00", room_type := some "Entire home/apt",
    host_neighbourhood := some "Hells Kitchen",
    neighbourhood_cleansed := some "Midtown", host_is_superhost := some "t",
    review_scores_rating := some 5, review_scores_accuracy := some 5,
    review_scores_cleanliness := some 5, review_scores_checkin := some 5,
    review_scores_communication := some 5, review_scores_location := some 5,
    picture_url := some "http://pic/g1", host_url := some "http://host/g1",
    host_response_rate := some "100%" }

/-- The cleaned form of `rawGood`. -/
def cleanedGood : Record :=
  { id := "g1", price := 1200, room_type := "Entire home/apt",
    host_neighbourhood := "Hells Kitchen",
    neighbourhood_cleansed := some "Midtown", host_is_superhost := "Yes",
    review_scores_rating := 5, review_scores_accuracy := 5,
    review_scores_cleanliness := 5, review_scores_checkin := 5,
    review_scores_communication := 5, review_scores_location := 5,
    avg_review_score := 5, picture_url := "http://pic/g1",
    host_url := "http://host/g1", host_response_rate := "100%" }

/-- A raw row whose price cell does not parse as a number. -/
def rawBadPrice : RawRecord := { rawGood with id := "g2", price := some "abc" }

/-- A raw row with a negative price. -/
def rawNegPrice : RawRecord := { rawGood with id := "g3", price := some "$-50.00" }

/-- The cleaned form of `rawNegPrice`: the negative price is kept. -/
def cleanedNeg : Record := { cleanedGood with id := "g3", price := -50 }

/-- A raw row whose `neighbourhood_cleansed` is NaN while every field the
cleaner checks (including `host_neighbourhood`) is present. -/
def rawMissingCleansed : RawRecord :=
  { rawGood with id := "g4", neighbourhood_cleansed := none }

/-- The cleaned form of `rawMissingCleansed`: it survives with a NaN
`neighbourhood_cleansed`. -/
def cleanedMissingCleansed : Record :=
  { cleanedGood with id := "g4", neighbourhood_cleansed := none }

/-- A selected-row `Series` whose `host_acceptance_rate` key is present
with a NaN value. -/
def rowNanAcceptance : PyRow :=
  [("host_name", PyVal.str "Alice"),
   ("host_response_rate", PyVal.str "95%"),
   ("host_acceptance_rate", PyVal.nan)]

/-- Seventeen neighbourhood names in ascending order. -/
def tieNames : List String :=
  ["A", "B", "C", "D", "E", "F", "G", "H", "I",
   "J", "K", "L", "M", "N", "O", "P", "Q"]

/-- A view with seventeen one-listing neighbourhoods, every listing
priced 100, so all seventeen group means tie exactly: one more group
than the 16-element insertion-sort cutoff, so the unstable partition
round of the default quicksort runs. -/
def tiedView : List Record :=
  tieNames.map (fun n => { recA with id := n, neighbourhood_cleansed := some n })

example : parseFloat? (stripPriceChars "$1,200.00") = some 1200 := by with_unfolding_all decide
example : parseFloat? (stripPriceChars "abc") = none := by decide
example : parseFloat? (stripPriceChars "$-50.00") = some (-50) := by with_unfolding_all decide
example : loadClean [rawGood] = Except.ok [cleanedGood] := by with_unfolding_all decide
example : loadClean [rawGood, rawBadPrice] = Except.error () := by with_unfolding_all decide
example : loadClean [rawNegPrice] = Except.ok [cleanedNeg] := by with_unfolding_all decide
example : loadClean [rawMissingCleansed] = Except.ok [cleanedMissingCleansed] := by with_unfolding_all decide
example : price_max cleanedTwo = 100 := by with_unfolding_all decide
example : price_min cleanedTwo = 100 := by with_unfolding_all decide
example : base_df cleanedTwo 100 100 "Yes" = [recA] := by with_unfolding_all decide
example : neighborhood_avg [recA, recB] = [("Midtown", 100), ("Harlem", 80)] := by with_unfolding_all decide
example : neighborhood_avg [recA, { recB with price := 100 }] =
    [("Harlem", 100), ("Midtown", 100)] := by with_unfolding_all decide
example : selected_row [recA, recB] "b2" = Except.ok recB := by with_unfolding_all decide
example : selected_row [] "x" = Except.error "IndexError" := by with_unfolding_all decide
example : hostFieldValue rowNanAcceptance "host_acceptance_rate" = "nan" := by decide
example : hostFieldValue [] "host_acceptance_rate" = "Not Available" := by decide

/-! ### Helper lemmas -/

/-- A min-fold never exceeds its start value. -/
theorem foldl_min_le_init (l : List Record) (a : ℚ) :
    l.foldl (fun m r => min m r.price) a ≤ a := by
  induction l generalizing a with
  | nil => exact le_refl a
  | cons x xs ih =>
      exact le_trans (ih (min a x.price)) (min_le_left a x.price)

/-- A min-fold never exceeds any member's price. -/
theorem foldl_min_le_mem (l : List Record) (a : ℚ) (r : Record) (hr : r ∈ l) :
    l.foldl (fun m r2 => min m r2.price) a ≤ r.price := by
  induction l generalizing a with
  | nil => cases hr
  | cons x xs ih =>
      cases List.mem_cons.mp hr with
      | inl hx =>
          subst hx
          exact le_trans (foldl_min_le_init xs (min a r.price)) (min_le_right a r.price)
      | inr hx => exact ih (min a x.price) hx

/-- The minimum price of a frame bounds every member's price below. -/
theorem priceMinVal_le (df : List Record) (r : Record) (hr : r ∈ df) :
    priceMinVal df ≤ r.price := by
  cases df with
  | nil => cases hr
  | cons d ds =>
      cases List.mem_cons.mp hr with
      | inl hd => subst hd; exact foldl_min_le_init ds r.price
      | inr hd => exact foldl_min_le_mem ds d.price r hd

/-- A min-fold over non-negative prices from a non-negative start stays
non-negative. -/
theorem foldl_min_nonneg (l : List Record) (a : ℚ) (ha : 0 ≤ a)
    (hl : ∀ r ∈ l, 0 ≤ r.price) :
    0 ≤ l.foldl (fun m r => min m r.price) a := by
  induction l generalizing a with
  | nil => exact ha
  | cons x xs ih =>
      refine ih (min a x.price) (le_min ha (hl x (List.mem_cons_self x xs))) ?_
      intro r hr
      exact hl r (List.mem_cons_of_mem x hr)

/-- With non-negative prices, the minimum price is non-negative. -/
theorem priceMinVal_nonneg (df : List Record) (hpos : ∀ r ∈ df, 0 ≤ r.price) :
    0 ≤ priceMinVal df := by
  cases df with
  | nil => exact le_refl 0
  | cons d ds =>
      exact foldl_min_nonneg ds d.price (hpos d (List.mem_cons_self d ds))
        (fun r hr => hpos r (List.mem_cons_of_mem d hr))

/-- `astype(float)` fails on a row exactly when its price cell is a
string that does not parse. -/
theorem priceCellOk_eq_false_iff (r : RawRecord) :
    priceCellOk r = false
      ↔ ∃ s, r.price = some s ∧ parseFloat? (stripPriceChars s) = none := by
  cases hp : r.price with
  | none =>
      have hok : priceCellOk r = true := by unfold priceCellOk; rw [hp]
      rw [hok]
      simp [hp]
  | some s =>
      have hok : priceCellOk r = (parseFloat? (stripPriceChars s)).isSome := by
        unfold priceCellOk; rw [hp]
      rw [hok]
      cases hps : parseFloat? (stripPriceChars s) with
      | none =>
          simp only [Option.isSome_none]
          constructor
          · intro _
            exact ⟨s, rfl, hps⟩
          · intro _
            trivial
      | some q =>
          simp only [Option.isSome_some]
          constructor
          · intro hfalse
            simp at hfalse
          · rintro ⟨s2, hs2, hps2⟩
            injection hs2 with h2
            subst h2
            rw [hps] at hps2
            exact Option.noConfusion hps2

/-- The truncated slider lower end never exceeds a member's price (with
non-negative prices, `int()` truncation is the floor, which sits below
the true minimum). -/
theorem price_min_le_price (df : List Record) (r : Record) (hr : r ∈ df)
    (hpos : ∀ r2 ∈ df, 0 ≤ r2.price) :
    ((price_min df : ℤ) : ℚ) ≤ r.price := by
  have h0 : 0 ≤ priceMinVal df := priceMinVal_nonneg df hpos
  have hfl : price_min df = (priceMinVal df).floor := by
    unfold price_min pyInt
    rw [if_pos h0]
  have hle : (((priceMinVal df).floor : ℤ) : ℚ) ≤ priceMinVal df :=
    Rat.le_floor.mp (le_refl _)
  rw [hfl]
  exact le_trans hle (priceMinVal_le df r hr)

/-- `ascTieDesc` is transitive: it is a strict lexicographic order on
(mean price, reversed name). -/
theorem ascTieDesc_trans {a b c : String × ℚ}
    (h1 : ascTieDesc a b) (h2 : ascTieDesc b c) : ascTieDesc a c := by
  rcases h1 with h1 | ⟨e1, n1⟩ <;> rcases h2 with h2 | ⟨e2, n2⟩
  · exact Or.inl (lt_trans h1 h2)
  · exact Or.inl (lt_of_lt_of_eq h1 e2)
  · exact Or.inl (lt_of_eq_of_lt e1 h2)
  · exact Or.inr ⟨e1.trans e2, lt_trans n2 n1⟩

/-- Membership through `insertByPrice`. -/
theorem mem_insertByPrice {w x : String × ℚ} {l : List (String × ℚ)} :
    w ∈ insertByPrice x l ↔ w = x ∨ w ∈ l := by
  induction l with
  | nil => simp [insertByPrice]
  | cons y ys ih =>
      unfold insertByPrice
      split
      · simp [List.mem_cons]
      · simp only [List.mem_cons, ih]
        tauto

/-- `insertByPrice` permutes: inserting is consing, up to order. -/
theorem insertByPrice_perm (x : String × ℚ) (l : List (String × ℚ)) :
    insertByPrice x l ~ x :: l := by
  induction l with
  | nil => exact List.Perm.refl _
  | cons y ys ih =>
      unfold insertByPrice
      split
      · exact List.Perm.refl _
      · exact (List.Perm.cons y ih).trans (List.Perm.swap x y ys)

/-- Stable insertion preserves the sort invariant when the incoming
element's name is below every name already present. -/
theorem insertByPrice_pairwise {x : String × ℚ} {l : List (String × ℚ)}
    (hl : l.Pairwise ascTieDesc) (hx : ∀ y ∈ l, x.1 < y.1) :
    (insertByPrice x l).Pairwise ascTieDesc := by
  induction l with
  | nil => simp [insertByPrice]
  | cons y ys ih =>
      obtain ⟨hy, hys⟩ := List.pairwise_cons.mp hl
      unfold insertByPrice
      split
      case isTrue hlt =>
          rw [List.pairwise_cons]
          refine ⟨?_, hl⟩
          intro w hw
          cases List.mem_cons.mp hw with
          | inl hwy => subst hwy; exact Or.inl hlt
          | inr hwys => exact ascTieDesc_trans (Or.inl hlt) (hy w hwys)
      case isFalse hge =>
          rw [List.pairwise_cons]
          constructor
          · intro w hw
            cases mem_insertByPrice.mp hw with
            | inl hwx =>
                subst hwx
                rcases lt_or_eq_of_le (le_of_not_lt hge) with h | h
                · exact Or.inl h
                · exact Or.inr ⟨h, hx y (List.mem_cons_self y ys)⟩
            | inr hwys => exact hy w hwys
          · exact ih hys (fun z hz => hx z (List.mem_cons_of_mem y hz))

/-- Folding stable insertion over name-descending input yields the sort
invariant. -/
theorem foldl_insert_pairwise (l : List (String × ℚ))
    (hl : l.Pairwise (fun a b => b.1 < a.1)) :
    ∀ acc : List (String × ℚ), acc.Pairwise ascTieDesc →
      (∀ a ∈ acc, ∀ b ∈ l, b.1 < a.1) →
      (l.foldl (fun acc2 x => insertByPrice x acc2) acc).Pairwise ascTieDesc := by
  induction l with
  | nil => intro acc hacc _; simpa using hacc
  | cons x xs ih =>
      intro acc hacc hcross
      obtain ⟨hxn, hxs⟩ := List.pairwise_cons.mp hl
      simp only [List.foldl_cons]
      refine ih hxs _ ?_ ?_
      · exact insertByPrice_pairwise hacc
          (fun y hy => hcross y hy x (List.mem_cons_self x xs))
      · intro a ha b hb
        cases mem_insertByPrice.mp ha with
        | inl hax => subst hax; exact hxn b hb
        | inr haacc => exact hcross a haacc b (List.mem_cons_of_mem x hb)

/-- Folding stable insertion permutes the input onto the accumulator. -/
theorem foldl_insert_perm (l : List (String × ℚ)) :
    ∀ acc : List (String × ℚ),
      l.foldl (fun acc2 x => insertByPrice x acc2) acc ~ l ++ acc := by
  induction l with
  | nil => intro acc; exact List.Perm.refl _
  | cons x xs ih =>
      intro acc
      simp only [List.foldl_cons, List.cons_append]
      calc xs.foldl (fun acc2 x2 => insertByPrice x2 acc2) (insertByPrice x acc)
          ~ xs ++ insertByPrice x acc := ih _
        _ ~ xs ++ (x :: acc) := List.Perm.append_left xs (insertByPrice_perm x acc)
        _ ~ x :: (xs ++ acc) := List.perm_middle

/-- Membership through `insertKey`. -/
theorem mem_insertKey {w x : String} {l : List String} :
    w ∈ insertKey x l ↔ w = x ∨ w ∈ l := by
  induction l with
  | nil => simp [insertKey]
  | cons y ys ih =>
      unfold insertKey
      split
      · simp [List.mem_cons]
      · split
        case isTrue heq =>
            have hxy : x = y := by simpa using heq
            subst hxy
            simp only [List.mem_cons]
            tauto
        case isFalse heq =>
            simp only [List.mem_cons, ih]
            tauto

/-- `insertKey` keeps the key list strictly ascending. -/
theorem insertKey_pairwise {x : String} {l : List String}
    (hl : l.Pairwise (· < ·)) : (insertKey x l).Pairwise (· < ·) := by
  induction l with
  | nil => simp [insertKey]
  | cons y ys ih =>
      obtain ⟨hy, hys⟩ := List.pairwise_cons.mp hl
      unfold insertKey
      split
      case isTrue h1 =>
          rw [List.pairwise_cons]
          refine ⟨?_, hl⟩
          intro w hw
          cases List.mem_cons.mp hw with
          | inl hwy => subst hwy; exact h1
          | inr hwys => exact lt_trans h1 (hy w hwys)
      case isFalse h1 =>
          split
          case isTrue h2 => exact hl
          case isFalse h2 =>
              rw [List.pairwise_cons]
              constructor
              · intro w hw
                cases mem_insertKey.mp hw with
                | inl hwx =>
                    subst hwx
                    have hne : w ≠ y := by
                      intro he
                      rw [he] at h2
                      simp at h2
                    exact lt_of_le_of_ne (le_of_not_lt h1) (Ne.symm hne)
                | inr hwys => exact hy w hwys
              · exact ih hys

/-- Folding `insertKey` preserves strict ascension of the accumulator. -/
theorem foldl_insertKey_pairwise (l : List String) :
    ∀ acc : List String, acc.Pairwise (· < ·) →
      (l.foldl (fun acc2 k => insertKey k acc2) acc).Pairwise (· < ·) := by
  induction l with
  | nil => intro acc hacc; simpa using hacc
  | cons x xs ih =>
      intro acc hacc
      simp only [List.foldl_cons]
      exact ih _ (insertKey_pairwise hacc)

/-- Membership through the `insertKey` fold. -/
theorem mem_foldl_insertKey (l : List String) :
    ∀ (acc : List String) (w : String),
      w ∈ l.foldl (fun acc2 k => insertKey k acc2) acc ↔ w ∈ acc ∨ w ∈ l := by
  induction l with
  | nil => intro acc w; simp
  | cons x xs ih =>
      intro acc w
      simp only [List.foldl_cons]
      rw [ih]
      rw [mem_insertKey]
      simp only [List.mem_cons]
      tauto

/-- The group keys are strictly ascending. -/
theorem groupKeys_pairwise (view : List Record) :
    (groupKeys view).Pairwise (· < ·) := by
  unfold groupKeys
  exact foldl_insertKey_pairwise _ [] List.Pairwise.nil

/-- A key is a group key exactly when some record carries it as its
(non-NaN) neighbourhood. -/
theorem mem_groupKeys (view : List Record) (k : String) :
    k ∈ groupKeys view ↔ some k ∈ view.map Record.neighbourhood_cleansed := by
  unfold groupKeys
  rw [mem_foldl_insertKey]
  simp [List.mem_filterMap, List.mem_map, eq_comm]

/-- The grouped rows carry strictly ascending names. -/
theorem groupRows_pairwise_names (view : List Record) :
    (groupRows view).Pairwise (fun a b => a.1 < b.1) := by
  unfold groupRows
  rw [List.pairwise_map]
  exact groupKeys_pairwise view

/-- Shape of a grouped row. -/
theorem mem_groupRows {view : List Record} {p : String × ℚ} :
    p ∈ groupRows view ↔ p.1 ∈ groupKeys view ∧ p = (p.1, groupMean view p.1) := by
  unfold groupRows
  rw [List.mem_map]
  constructor
  · rintro ⟨k, hk, rfl⟩
    exact ⟨hk, rfl⟩
  · rintro ⟨hk, hp⟩
    exact ⟨p.1, hk, hp.symm⟩

/-- The reverse / stable ascending sort / reverse pipeline permutes its
input. -/
theorem sortAsc_rev_perm (l : List (String × ℚ)) :
    (sortAscByPrice l.reverse).reverse ~ l := by
  unfold sortAscByPrice
  calc (List.foldl (fun acc x => insertByPrice x acc) [] l.reverse).reverse
      ~ List.foldl (fun acc x => insertByPrice x acc) [] l.reverse :=
        List.reverse_perm _
    _ ~ l.reverse ++ [] := foldl_insert_perm _ []
    _ = l.reverse := List.append_nil _
    _ ~ l := List.reverse_perm _

/-- The names of the grouped rows are exactly the group keys. -/
theorem groupRows_map_fst (view : List Record) :
    (groupRows view).map Prod.fst = groupKeys view := by
  unfold groupRows
  rw [List.map_map]
  have hcomp : (Prod.fst ∘ fun k => (k, groupMean view k)) = (id : String → String) := rfl
  rw [hcomp, List.map_id]

/-- Insertion-sorting the whole range in place is the stable ascending
sort of the list. -/
theorem insortRange_full (l : List (String × ℚ)) :
    insortRange l 0 (l.length - 1) = sortAscByPrice l := by
  cases l with
  | nil => rfl
  | cons x xs =>
      unfold insortRange
      simp only [List.length_cons, List.take_zero, List.drop_zero, List.nil_append,
        Nat.sub_zero]
      have h1 : xs.length + 1 - 1 + 1 = xs.length + 1 := by omega
      rw [h1]
      rw [List.take_of_length_le (by simp), List.drop_eq_nil_of_le (by simp),
        List.append_nil]

/-- With a small range and an empty stack, the quicksort main loop is
exactly one insertion sort: the partition guard fails at once. -/
theorem npSortLoop_small (fuel : ℕ) (arr : List (String × ℚ)) (pl pr : ℕ)
    (h : ¬ pl + 15 < pr) :
    npSortLoop (fuel + 1) arr [] pl pr = insortRange arr pl pr := by
  unfold npSortLoop
  rw [if_neg h]

/-- At sixteen elements or fewer, numpy's default quicksort is exactly
its stable insertion-sort path. -/
theorem npQuicksortByPrice_small (l : List (String × ℚ)) (h : l.length ≤ 16) :
    npQuicksortByPrice l = sortAscByPrice l := by
  unfold npQuicksortByPrice
  have hf : 2 * l.length + 2 = (2 * l.length + 1) + 1 := rfl
  rw [hf, npSortLoop_small _ _ _ _ (by omega), insortRange_full]

/-- For at most sixteen rows, the descending sort is the stable
descending sort (reverse, stable ascending sort, reverse). -/
theorem sort_values_desc_small (l : List (String × ℚ)) (h : l.length ≤ 16) :
    sort_values_desc l = (sortAscByPrice l.reverse).reverse := by
  unfold sort_values_desc
  rw [npQuicksortByPrice_small _ (by simpa using h)]

/-- For a view with at most sixteen neighbourhood groups, the summary
table is the stable descending sort of the grouped rows. -/
theorem neighborhood_avg_small (view : List Record)
    (h : (groupKeys view).length ≤ 16) :
    neighborhood_avg view = (sortAscByPrice (groupRows view).reverse).reverse := by
  unfold neighborhood_avg
  exact sort_values_desc_small _ (by simpa [groupRows] using h)

/-! ### Claim theorems -/

/-- Claim C1: Stage-1 filtering is a membership biconditional — for every
cleaned record set, price bounds and superhost selection, a record is in
`base_df` iff its price lies in `[lo, hi]` (both inclusive) and its
superhost flag equals the selected value exactly. -/
theorem c1_stage1_membership (df : List Record) (lo hi : ℚ) (sel : String) (r : Record) :
    r ∈ base_df df lo hi sel
      ↔ r ∈ df ∧ lo ≤ r.price ∧ r.price ≤ hi ∧ r.host_is_superhost = sel := by
  simp [base_df, stage1Pred, List.mem_filter, and_assoc]

/-- Claim C2 (code bug): a raw row whose `neighbourhood_cleansed` — the
neighbourhood field every downstream filter and grouping uses — is NaN
still survives the Loader/Cleaner, because the dropna at line 14 checks
the otherwise-unused `host_neighbourhood` column instead. -/
theorem c2_cleaning_checks_wrong_neighbourhood_field :
    loadClean [rawMissingCleansed] = Except.ok [cleanedMissingCleansed]
    ∧ cleanedMissingCleansed.neighbourhood_cleansed = none := by
  exact ⟨by with_unfolding_all decide, rfl⟩

/-- Claim C3 counterexample: on seventeen equal-mean neighbourhoods
named "A".."Q" (one more group than the 16-element insertion-sort
cutoff), the partition round of the default unstable quicksort scrambles
the ties — the summary comes back A,J,P,O,N,M,L,K,I,B,H,G,F,E,D,C,Q —
so the output is not ordered with equal-mean ties broken by
neighbourhood name ascending. -/
theorem c3_counterexample :
    (neighborhood_avg tiedView).map Prod.fst =
      ["A", "J", "P", "O", "N", "M", "L", "K", "I",
       "B", "H", "G", "F", "E", "D", "C", "Q"]
    ∧ (∀ p ∈ neighborhood_avg tiedView, p.2 = (100 : ℚ))
    ∧ ¬ (neighborhood_avg tiedView).Pairwise
        (fun a b => b.2 < a.2 ∨ (a.2 = b.2 ∧ a.1 < b.1)) := by
  refine ⟨by with_unfolding_all decide, by with_unfolding_all decide,
    by with_unfolding_all decide⟩

/-- Claim C3 amended: for every view with at most sixteen distinct
neighbourhoods — where the default quicksort runs its stable
insertion-sort path — `neighborhood_avg` has one row per distinct
neighbourhood of the view (no duplicates, no misses), ordered by mean
price descending with ties between equal means broken by neighbourhood
name ascending, each row carrying its group's mean price; the order is a
deterministic function of the view.  Beyond sixteen groups the unstable
partitioning gives no such tie order. -/
theorem c3_small_view_order (view : List Record)
    (hsmall : (groupKeys view).length ≤ 16) :
    (neighborhood_avg view).Pairwise
        (fun a b => b.2 < a.2 ∨ (a.2 = b.2 ∧ a.1 < b.1))
    ∧ ((neighborhood_avg view).map Prod.fst).Nodup
    ∧ (∀ k : String, k ∈ (neighborhood_avg view).map Prod.fst
        ↔ some k ∈ view.map Record.neighbourhood_cleansed)
    ∧ ∀ p ∈ neighborhood_avg view, p.2 = groupMean view p.1 := by
  have hna := neighborhood_avg_small view hsmall
  have hperm : neighborhood_avg view ~ groupRows view := by
    rw [hna]
    exact sortAsc_rev_perm _
  have hnames : (neighborhood_avg view).map Prod.fst ~ groupKeys view :=
    groupRows_map_fst view ▸ hperm.map Prod.fst
  refine ⟨?_, ?_, ?_, ?_⟩
  · have hsorted : (sortAscByPrice (groupRows view).reverse).Pairwise ascTieDesc := by
      unfold sortAscByPrice
      refine foldl_insert_pairwise _ ?_ [] List.Pairwise.nil ?_
      · rw [List.pairwise_reverse]
        exact groupRows_pairwise_names view
      · intro a ha
        cases ha
    rw [hna, List.pairwise_reverse]
    exact List.Pairwise.imp
      (fun h => h.elim Or.inl (fun he => Or.inr ⟨he.1.symm, he.2⟩)) hsorted
  · have hnd : (groupKeys view).Nodup :=
      List.Pairwise.imp (fun h => ne_of_lt h) (groupKeys_pairwise view)
    exact (hnames.nodup_iff).mpr hnd
  · intro k
    rw [hnames.mem_iff]
    exact mem_groupKeys view k
  · intro p hp
    have hp2 : p ∈ groupRows view := hperm.mem_iff.mp hp
    exact congrArg Prod.snd (mem_groupRows.mp hp2).2

/-- Claim C3 witness: the amended theorem at a concrete one-group view
inside the insertion-sort regime, every hypothesis discharged
concretely. -/
theorem c3_witness :
    (groupKeys [recA]).length ≤ 16
    ∧ (("Midtown", (100 : ℚ)) : String × ℚ).2
        = groupMean [recA] (("Midtown", (100 : ℚ)) : String × ℚ).1 :=
  ⟨by with_unfolding_all decide,
    (c3_small_view_order [recA] (by with_unfolding_all decide)).2.2.2
      ("Midtown", 100) (by with_unfolding_all decide)⟩

/-- Claim C4 counterexample: with an empty `filtered_view` (so the
identifier is certainly absent), the Stage-3 selector raises
`IndexError` instead of returning a NotFound signal. -/
theorem c4_counterexample :
    selected_row ([] : List Record) "12345" = Except.error "IndexError" := rfl

/-- Claim C4 amended: for every `filtered_view` and identifier absent
from it, the Stage-3 selector's `.iloc[0]` raises `IndexError` — an
exception, not a NotFound signal; absent identifiers never yield a
spurious record. -/
theorem c4_absent_id_raises (view : List Record) (sel : String)
    (h : ∀ r ∈ view, r.id ≠ sel) :
    selected_row view sel = Except.error "IndexError" := by
  have hf : view.filter (fun r => r.id == sel) = [] := by
    rw [List.filter_eq_nil_iff]
    intro a ha
    simpa using h a ha
  simp [selected_row, hf, iloc0]

/-- Claim C4 witness: the amended theorem at a concrete view and absent
identifier. -/
theorem c4_witness :
    (∀ r ∈ [recA], r.id ≠ "zzz")
    ∧ selected_row [recA] "zzz" = Except.error "IndexError" :=
  ⟨by decide, c4_absent_id_raises [recA] "zzz" (by decide)⟩

/-- Claim C5 counterexample: a `host_acceptance_rate` key that is present
with a NaN value is rendered as the raw text `nan`, not as the
`Not Available` marker — `Series.get` only substitutes the default for a
missing key. -/
theorem c5_counterexample :
    hostFieldValue rowNanAcceptance "host_acceptance_rate" = "nan"
    ∧ "nan" ≠ "Not Available" :=
  ⟨rfl, by decide⟩

/-- Claim C5 amended: every host field is rendered (one line per entry of
`host_fields`), and the `Not Available` marker appears exactly when the
field is absent as a key of the record; a key present with any value —
NaN included — is rendered as that value's text. -/
theorem c5_amended_marker_scope (row : PyRow) (f : String) (_hf : f ∈ host_fields) :
    (hostInfoLines row).map Prod.fst = host_fields
    ∧ (row.find? (fun kv => kv.1 == f) = none → hostFieldValue row f = "Not Available")
    ∧ (∀ kv, row.find? (fun kv => kv.1 == f) = some kv →
        hostFieldValue row f = pyValText kv.2) := by
  refine ⟨rfl, ?_, ?_⟩
  · intro h
    simp [hostFieldValue, rowGet, h, pyValText]
  · intro kv h
    simp [hostFieldValue, rowGet, h]

/-- Claim C5 witness: the amended theorem at a concrete record missing
the `host_acceptance_rate` key. -/
theorem c5_witness :
    "host_acceptance_rate" ∈ host_fields
    ∧ hostFieldValue [("host_name", PyVal.str "Bob")] "host_acceptance_rate" = "Not Available" :=
  ⟨by decide,
    (c5_amended_marker_scope [("host_name", PyVal.str "Bob")] "host_acceptance_rate"
      (by decide)).2.1 rfl⟩

/-- Claim C6 counterexample: on a cleaned set of superhost listings
priced 100 and 100.5, the full slider range is `[int(100), int(100.5)] =
[100, 100]`, so `base_df` at the widest selectable range with "Yes" keeps
only the 100-priced record — it is not the full superhost subset. -/
theorem c6_counterexample :
    base_df cleanedTwo ((price_min cleanedTwo : ℤ) : ℚ) ((price_max cleanedTwo : ℤ) : ℚ) "Yes"
        = [recA]
    ∧ cleanedTwo.filter (fun r => r.host_is_superhost == "Yes") = cleanedTwo
    ∧ ([recA] : List Record) ≠ cleanedTwo := by
  refine ⟨by with_unfolding_all decide, by with_unfolding_all decide, by with_unfolding_all decide⟩

/-- Claim C6 amended: with the slider at its full extent and any
superhost selection, `base_df` equals the records with the selected flag
whose price is at most `int(max price)`: the truncated lower bound never
excludes anything (for the non-negative prices the spec's data model
posits), but records priced strictly above the truncated maximum are
excluded, so the view equals the full flag subset only when the maximum
price is integral. -/
theorem c6_amended_truncated_bound (df : List Record) (sel : String)
    (hpos : ∀ r ∈ df, 0 ≤ r.price) :
    base_df df ((price_min df : ℤ) : ℚ) ((price_max df : ℤ) : ℚ) sel
      = df.filter (fun r =>
          (r.host_is_superhost == sel) && decide (r.price ≤ ((price_max df : ℤ) : ℚ))) := by
  unfold base_df
  apply List.filter_congr
  intro r hr
  have hmin : ((price_min df : ℤ) : ℚ) ≤ r.price := price_min_le_price df r hr hpos
  simp [stage1Pred, hmin, Bool.and_comm]

/-- Claim C6 witness: the amended theorem at the concrete two-record set. -/
theorem c6_witness :
    (∀ r ∈ cleanedTwo, 0 ≤ r.price)
    ∧ base_df cleanedTwo ((price_min cleanedTwo : ℤ) : ℚ) ((price_max cleanedTwo : ℤ) : ℚ) "Yes"
        = cleanedTwo.filter (fun r =>
            (r.host_is_superhost == "Yes")
              && decide (r.price ≤ ((price_max cleanedTwo : ℤ) : ℚ))) :=
  ⟨by with_unfolding_all decide, c6_amended_truncated_bound cleanedTwo "Yes"
    (by with_unfolding_all decide)⟩

/-- Claim C7 counterexample: one malformed price cell aborts the whole
load (`astype(float)` raises; even the well-formed record is lost), and a
negative price parses and is kept — parsing enforces no non-negativity. -/
theorem c7_counterexample :
    loadClean [rawGood, rawBadPrice] = Except.error ()
    ∧ loadClean [rawNegPrice] = Except.ok [cleanedNeg]
    ∧ cleanedNeg.price < 0 := by
  refine ⟨by with_unfolding_all decide, by with_unfolding_all decide, by with_unfolding_all decide⟩

/-- Claim C7 amended: price parsing strips dollar signs and commas and
converts to float; the load fails as a whole exactly when some record's
price cell is a string that does not parse (parse failure is fatal, not a
per-record exclusion), while a record whose price cell is simply missing
is excluded per-record by the dropna. -/
theorem c7_amended_fatal_parse (rows : List RawRecord) :
    (loadClean rows = Except.error ()
      ↔ ∃ r ∈ rows, ∃ s, r.price = some s ∧ parseFloat? (stripPriceChars s) = none)
    ∧ (∀ r : RawRecord, r.price = none → cleanRecord? r = none) := by
  constructor
  · constructor
    · intro herr
      by_cases hall : rows.all priceCellOk = true
      · simp [loadClean, hall] at herr
      · have hex : ∃ r ∈ rows, priceCellOk r = false := by
          rw [List.all_eq_true] at hall
          push_neg at hall
          obtain ⟨r, hr, hbad⟩ := hall
          exact ⟨r, hr, by revert hbad; cases priceCellOk r <;> simp⟩
        obtain ⟨r, hr, hbad⟩ := hex
        exact ⟨r, hr, (priceCellOk_eq_false_iff r).mp hbad⟩
    · rintro ⟨r, hr, s, hps, hparse⟩
      have hfalse : priceCellOk r = false :=
        (priceCellOk_eq_false_iff r).mpr ⟨s, hps, hparse⟩
      have hnall : rows.all priceCellOk ≠ true := by
        intro hall
        rw [List.all_eq_true] at hall
        have h2 := hall r hr
        rw [hfalse] at h2
        cases h2
      simp [loadClean, hnall]
  · intro r h
    simp [cleanRecord?, h]

/-- Claim C7 witness: the amended theorem at a one-record list with an
unparseable price. -/
theorem c7_witness :
    loadClean [rawBadPrice] = Except.error ()
    ∧ cleanRecord? { rawGood with price := none } = none :=
  ⟨(c7_amended_fatal_parse [rawBadPrice]).1.mpr
      ⟨rawBadPrice, by simp, "abc", rfl, by decide⟩,
    (c7_amended_fatal_parse []).2 { rawGood with price := none } rfl⟩

/-- Claim C8: every successful Stage-3 selection returns a record of the
view, and its ReviewBreakdown is exactly six `(category, score)` pairs in
the fixed order Rating, Accuracy, Cleanliness, Check-in, Communication,
Location, each score the selected record's corresponding field. -/
theorem c8_review_breakdown (view : List Record) (sel : String) (rec : Record)
    (h : selected_row view sel = Except.ok rec) :
    rec ∈ view
    ∧ review_scores rec =
        [("Rating", rec.review_scores_rating),
         ("Accuracy", rec.review_scores_accuracy),
         ("Cleanliness", rec.review_scores_cleanliness),
         ("Check-in", rec.review_scores_checkin),
         ("Communication", rec.review_scores_communication),
         ("Location", rec.review_scores_location)]
    ∧ (review_scores rec).length = 6 := by
  refine ⟨?_, rfl, rfl⟩
  unfold selected_row at h
  cases hf : view.filter (fun r => r.id == sel) with
  | nil => rw [hf] at h; exact absurd h (by simp [iloc0])
  | cons a tl =>
      rw [hf] at h
      have ha : a = rec := by simpa [iloc0] using h
      have hmem : a ∈ view.filter (fun r => r.id == sel) := by
        rw [hf]; exact List.mem_cons_self a tl
      exact ha ▸ (List.mem_filter.mp hmem).1

/-- Claim C8 witness: the theorem at a concrete successful selection. -/
theorem c8_witness :
    selected_row [recB] "b2" = Except.ok recB
    ∧ (recB ∈ [recB]
        ∧ review_scores recB =
            [("Rating", recB.review_scores_rating),
             ("Accuracy", recB.review_scores_accuracy),
             ("Cleanliness", recB.review_scores_cleanliness),
             ("Check-in", recB.review_scores_checkin),
             ("Communication", recB.review_scores_communication),
             ("Location", recB.review_scores_location)]
        ∧ (review_scores recB).length = 6) :=
  ⟨by with_unfolding_all decide,
    c8_review_breakdown [recB] "b2" recB (by with_unfolding_all decide)⟩

/-- Claim C9: round-trip of selection — for every identifier in the
distinct-identifier set of `filtered_view`, the selector succeeds and the
returned record carries that identifier. -/
theorem c9_roundtrip (view : List Record) (sel : String)
    (h : ∃ r ∈ view, r.id = sel) :
    ∃ rec, selected_row view sel = Except.ok rec ∧ rec.id = sel := by
  obtain ⟨r, hr, hid⟩ := h
  have hmem : r ∈ view.filter (fun r2 => r2.id == sel) :=
    List.mem_filter.mpr ⟨hr, by simp [hid]⟩
  cases hf : view.filter (fun r2 => r2.id == sel) with
  | nil => rw [hf] at hmem; cases hmem
  | cons a tl =>
      refine ⟨a, by simp [selected_row, hf, iloc0], ?_⟩
      have ha : a ∈ view.filter (fun r2 => r2.id == sel) := by
        rw [hf]; exact List.mem_cons_self a tl
      simpa using (List.mem_filter.mp ha).2

/-- Claim C9 witness: the round-trip at a concrete view and identifier. -/
theorem c9_witness :
    (∃ r ∈ [recA, recB], r.id = "b2")
    ∧ ∃ rec, selected_row [recA, recB] "b2" = Except.ok rec ∧ rec.id = "b2" :=
  ⟨⟨recB, by simp, rfl⟩, c9_roundtrip [recA, recB] "b2" ⟨recB, by simp, rfl⟩⟩

/-- Claim C10: the subset chain — every record of `filtered_df` is a
member of `base_df` and simultaneously satisfies the Stage-1 predicate
(price within bounds, flag equal to the selection) and the Stage-2
predicate (room type and neighbourhood equal to the selections). -/
theorem c10_subset_chain (df : List Record) (lo hi : ℚ) (sel room neigh : String)
    (r : Record) (h : r ∈ filtered_df (base_df df lo hi sel) room neigh) :
    r ∈ base_df df lo hi sel
    ∧ (lo ≤ r.price ∧ r.price ≤ hi ∧ r.host_is_superhost = sel)
    ∧ (r.room_type = room ∧ r.neighbourhood_cleansed = some neigh) := by
  unfold filtered_df at h
  obtain ⟨hbase, hs2⟩ := List.mem_filter.mp h
  have hs1 := (List.mem_filter.mp
    (show r ∈ df.filter (stage1Pred lo hi sel) from hbase)).2
  simp only [stage1Pred, Bool.and_eq_true, decide_eq_true_eq, beq_iff_eq] at hs1
  simp only [stage2Pred, Bool.and_eq_true, beq_iff_eq] at hs2
  exact ⟨hbase, ⟨hs1.1.1, hs1.1.2, hs1.2⟩, hs2⟩

/-- Claim C10 witness: the subset chain at a concrete pipeline state. -/
theorem c10_witness :
    recA ∈ filtered_df (base_df [recA, recB] 0 1000 "Yes") "Entire home/apt" "Midtown"
    ∧ (recA ∈ base_df [recA, recB] 0 1000 "Yes"
        ∧ ((0 : ℚ) ≤ recA.price ∧ recA.price ≤ 1000 ∧ recA.host_is_superhost = "Yes")
        ∧ (recA.room_type = "Entire home/apt"
            ∧ recA.neighbourhood_cleansed = some "Midtown")) :=
  ⟨by with_unfolding_all decide,
    c10_subset_chain [recA, recB] 0 1000 "Yes" "Entire home/apt" "Midtown" recA
      (by with_unfolding_all decide)⟩

end Listings
